import Mathlib

/-!
# Formal model of the HAKO loader (`loader.c`) and extension mechanism

This file is a shallow embedding of the current HAKO bytecode loader
(`loader.c`, the revision that starts a dedicated VM thread from
`hako_start_vm_thread`) together with the extension auto-registration
walk (`hako_init_extensions`).  The embedding follows the C source
statement by statement:

* C pointers that may be NULL are modelled as `Option` values
  (`none` = NULL); a bytecode blob is identified by an opaque `Nat`.
* The mutable globals of `loader.c` (`g_vm_initialized`,
  `g_vm_thread_started`, `g_bytecode_registry` + `g_bytecode_count`,
  `g_vm`, `g_core_methods_registered`) become the fields of `HakoState`.
  Two extra fields record observable calls into external components:
  `tasks` logs every successful `mrbc_create_task` (with the name given
  to `mrbc_set_task_name` and the bytecode), and `thread_spawns` counts
  calls to `k_thread_create`.
* Outcomes of external calls that can fail (`mrbc_create_task`) are
  supplied as explicit oracle parameters (`task_ok`, `task_vm`).
* Error returns use the errno values of the target
  (`-EINVAL`, `-ENOMEM`) as integers.
-/

namespace Hako

/-- Opaque reference to an mruby bytecode blob (a non-NULL
`const uint8_t *`); distinct numbers model distinct pointers. -/
abbrev Bytecode := Nat

/-- Registry entry `struct hako_bytecode_entry` from `loader.h`: a module name and a
bytecode pointer.  Either pointer may be NULL in a caller-supplied
array, hence both fields are `Option`. -/
structure BytecodeEntry where
  name : Option String
  bytecode : Option Bytecode
deriving DecidableEq, Repr

/-- Extension descriptor `struct hako_extension_entry` from `extension.h`: extension name,
its `init` callback (identified by an opaque number) and a `uint8_t`
priority (`lower = earlier` per the header's documentation). -/
structure ExtensionEntry where
  name : String
  init : Nat
  priority : Nat
deriving DecidableEq, Repr

/-- Capacity constant `MAX_BYTECODE_MODULES` in `loader.c`. -/
def MAX_BYTECODE_MODULES : Nat := 32

/-- Zephyr errno value `EINVAL`. -/
def EINVAL : Int := 22

/-- Zephyr errno value `ENOMEM`. -/
def ENOMEM : Int := 12

/-- The mutable global state of `loader.c`, all fields guarded by
`g_vm_mutex` in the source.  `bytecode_registry` models the used prefix
`g_bytecode_registry[0 .. g_bytecode_count)`; by construction its
entries always have a non-NULL name and bytecode, so they are plain
pairs.  `tasks` and `thread_spawns` are instrumentation recording the
calls made to `mrbc_create_task`/`mrbc_set_task_name` and to
`k_thread_create` respectively. -/
structure HakoState where
  vm_initialized : Bool
  vm_thread_started : Bool
  bytecode_registry : List (String × Bytecode)
  vm : Option Nat
  core_methods_registered : Bool
  tasks : List (Option String × Bytecode)
  thread_spawns : Nat
deriving DecidableEq, Repr

/-- State of the process at load time: every `static bool` is false,
the registry count is 0, `g_vm` is NULL, no tasks, no threads. -/
def initialState : HakoState :=
  ⟨false, false, [], none, false, [], 0⟩

/-- Result of `hako_init`: the state after the call, the returned
`int`, and the number of times the call invoked
`hako_init_extensions` (recorded so properties about the extension
walk during `init` can be stated).  In the current source the line
`hako_init_extensions();` inside `hako_init` is commented out
(`//hako_init_extensions();`), so the faithful translation performs
zero walks on every path. -/
structure InitResult where
  state : HakoState
  ret : Int
  extension_walks : Nat
deriving DecidableEq, Repr

/-- Function `hako_init` from `loader.c`: under the mutex, if already
initialized log a warning and return 0; otherwise run `mrbc_init` over
the memory pool, register the core methods
(`hako_register_core_methods` sets `g_core_methods_registered`), set
`g_vm_initialized = true`, `g_vm_thread_started = false`,
`g_bytecode_count = 0`, release the mutex and return 0.  The call to
`hako_init_extensions()` that the header documents is commented out in
the source, so `extension_walks = 0` on both paths. -/
def hako_init (s : HakoState) : InitResult :=
  if s.vm_initialized then
    ⟨s, 0, 0⟩
  else
    ⟨{ s with vm_initialized := true
              vm_thread_started := false
              bytecode_registry := []
              core_methods_registered := true }, 0, 0⟩

/-- The state reached by the first successful `hako_init` from the
load-time state. -/
def postInitState : HakoState := (hako_init initialState).state

/-- The registration loop of `hako_load_registry`:
`for (i = 0; i < count && registry[i].name != NULL; i++)`.
The `count` bound is applied by the caller (`List.take`); the loop
stops returning 0 at a NULL name, skips (`continue`) entries with NULL
bytecode, appends a valid entry while `g_bytecode_count` is below
`MAX_BYTECODE_MODULES`, and returns `-ENOMEM` as soon as a valid entry
meets a full table. -/
def registerLoop : List BytecodeEntry → List (String × Bytecode) →
    List (String × Bytecode) × Int
  | [], reg => (reg, 0)
  | ⟨none, _⟩ :: _, reg => (reg, 0)
  | ⟨some _, none⟩ :: rest, reg => registerLoop rest reg
  | ⟨some n, some b⟩ :: rest, reg =>
    if reg.length < MAX_BYTECODE_MODULES then
      registerLoop rest (reg ++ [(n, b)])
    else
      (reg, -ENOMEM)

/-- Function `hako_load_registry` from `loader.c`: fails `-EINVAL` when the VM
is not initialized or the registry pointer is NULL, otherwise runs the
registration loop over at most `count` entries of the array. -/
def hako_load_registry (s : HakoState) (reg? : Option (List BytecodeEntry))
    (count : Nat) : HakoState × Int :=
  if !s.vm_initialized then
    (s, -EINVAL)
  else
    match reg? with
    | none => (s, -EINVAL)
    | some entries =>
      let r := registerLoop (entries.take count) s.bytecode_registry
      ({ s with bytecode_registry := r.1 }, r.2)

/-- The scan loop of `hako_find_bytecode_locked`: linear walk of the
used registry prefix, `strcmp` equality, first match returned. -/
def findLoop : List (String × Bytecode) → String → Option Bytecode
  | [], _ => none
  | e :: rest, n => if e.1 = n then some e.2 else findLoop rest n

/-- Function `hako_find_bytecode_locked` from `loader.c`: NULL name gives NULL,
otherwise the linear first-match scan. -/
def hako_find_bytecode_locked (reg : List (String × Bytecode))
    (name : Option String) : Option Bytecode :=
  match name with
  | none => none
  | some n => findLoop reg n

/-- Function `hako_find_bytecode`: the public wrapper, which only takes the
mutex around `hako_find_bytecode_locked`. -/
def hako_find_bytecode (s : HakoState) (name : Option String) :
    Option Bytecode :=
  hako_find_bytecode_locked s.bytecode_registry name

/-- Function `hako_load_bytecode_locked` from `loader.c`: asks the interpreter
for a task via `mrbc_create_task` (its success and the address of the
task's VM are the oracle parameters `task_ok`, `task_vm`); on failure
returns `-ENOMEM` with no state change; on success names the task when
a name is given, publishes the task's VM as `g_vm` if `g_vm` was NULL,
and returns 0. -/
def hako_load_bytecode_locked (s : HakoState) (name : Option String)
    (bytecode : Bytecode) (task_ok : Bool) (task_vm : Nat) :
    HakoState × Int :=
  if !task_ok then
    (s, -ENOMEM)
  else
    ({ s with tasks := s.tasks ++ [(name, bytecode)]
              vm := match s.vm with
                    | none => some task_vm
                    | some v => some v }, 0)

/-- Function `hako_load_bytecode` from `loader.c`: returns `-EINVAL` when the VM is not
initialized or the bytecode pointer is NULL, else the locked load. -/
def hako_load_bytecode (s : HakoState) (name : Option String)
    (bytecode : Option Bytecode) (task_ok : Bool) (task_vm : Nat) :
    HakoState × Int :=
  if !s.vm_initialized then
    (s, -EINVAL)
  else
    match bytecode with
    | none => (s, -EINVAL)
    | some b => hako_load_bytecode_locked s name b task_ok task_vm

/-- Function `hako_start_vm_thread` from `loader.c`: `-EINVAL` before `init`;
immediate 0 when the VM thread is already started; otherwise look up
`"main"`, load it as a task when found (propagating a negative return
before any thread is created), then `k_thread_create` the supervisor
thread (counted in `thread_spawns`), set `g_vm_thread_started = true`
and return `ret` (0). -/
def hako_start_vm_thread (s : HakoState) (task_ok : Bool) (task_vm : Nat) :
    HakoState × Int :=
  if !s.vm_initialized then
    (s, -EINVAL)
  else if s.vm_thread_started then
    (s, 0)
  else
    match hako_find_bytecode_locked s.bytecode_registry (some "main") with
    | some main_bytecode =>
      let r := hako_load_bytecode_locked s (some "main") main_bytecode
                 task_ok task_vm
      if r.2 < 0 then
        (r.1, r.2)
      else
        ({ r.1 with vm_thread_started := true
                    thread_spawns := r.1.thread_spawns + 1 }, r.2)
    | none =>
      ({ s with vm_thread_started := true
                thread_spawns := s.thread_spawns + 1 }, 0)

/-- Function `hako_run` from `loader.c`: a direct call to
`hako_start_vm_thread`. -/
def hako_run (s : HakoState) (task_ok : Bool) (task_vm : Nat) :
    HakoState × Int :=
  hako_start_vm_thread s task_ok task_vm

/-- The extension walk of the current `hako_init_extensions` in
`loader.c`: with interrupts locked, one pass over the
`.hako_extensions` linker section in discovery order, calling
`ext->init()` on each entry.  (The earlier revision's priority-ordered
double loop was removed; the source comments it away.)  The result is
the sequence of `init` callbacks in invocation order. -/
def extensionWalk : List ExtensionEntry → List Nat
  | [] => []
  | ext :: rest => ext.init :: extensionWalk rest

/-- Function `hako_init_extensions` from the current `loader.c`, observed as
the invocation trace of extension `init` callbacks.  The catalog is
the snapshot of the `.hako_extensions` section between
`__hako_extensions_start` and `__hako_extensions_end`, in discovery
(link) order. -/
def hako_init_extensions (catalog : List ExtensionEntry) : List Nat :=
  extensionWalk catalog

/-- Comparison definition written from the spec's words, not from the
code: the documented, intended invocation order
for extensions — ascending numeric priority (a `uint8_t`, hence
0..255), lower priority earlier, ties between equal priorities broken
by catalog-discovery order.  This is the contract stated in
`extension.h` ("Walks through .hako_extensions linker section and
calls init functions in priority order") and mandated by the spec; it
is written here from those words, for comparison with
`hako_init_extensions` above. -/
def priorityOrderedWalk (catalog : List ExtensionEntry) : List Nat :=
  ((List.range 256).map
    (fun p => (catalog.filter (fun e => e.priority == p)).map
      ExtensionEntry.init)).flatten

/-- One call through the public façade, with each external oracle
outcome as payload.  `doFind` is read-only. -/
inductive HakoOp where
  | doInit
  | doLoadRegistry (reg? : Option (List BytecodeEntry)) (count : Nat)
  | doLoadBytecode (name : Option String) (bytecode : Option Bytecode)
      (task_ok : Bool) (task_vm : Nat)
  | doRun (task_ok : Bool) (task_vm : Nat)
  | doFind (name : Option String)
deriving Repr

/-- State transition of one public façade call. -/
def stepState (s : HakoState) : HakoOp → HakoState
  | .doInit => (hako_init s).state
  | .doLoadRegistry r c => (hako_load_registry s r c).1
  | .doLoadBytecode n b ok v => (hako_load_bytecode s n b ok v).1
  | .doRun ok v => (hako_run s ok v).1
  | .doFind _ => s

/-- The state reached from process start by a sequence of public
façade calls. -/
def runOps (ops : List HakoOp) : HakoState :=
  ops.foldl stepState initialState

/-- Lift a list of (non-NULL) name/bytecode pairs to the entry array a
build-generated registry table provides. -/
def entriesOf (ps : List (String × Bytecode)) : List BytecodeEntry :=
  ps.map (fun p => ⟨some p.1, some p.2⟩)

/-- Extension catalog with discovery-order priorities [50, 10, 90, 10],
the example of the spec's ordering property; callbacks are 0, 1, 2, 3
in discovery order. -/
def exampleCatalog : List ExtensionEntry :=
  [⟨"ext0", 0, 50⟩, ⟨"ext1", 1, 10⟩, ⟨"ext2", 2, 90⟩, ⟨"ext3", 3, 10⟩]

/-- An initialized state whose VM thread is already running, for
witnesses. -/
def startedState : HakoState := ⟨true, true, [], none, true, [], 1⟩

/-- A batch of 33 valid entries with distinct names, for the C6
witness. -/
def batch33 : List (String × Bytecode) :=
  [("m00", 1), ("m01", 2), ("m02", 3), ("m03", 4),
   ("m04", 5), ("m05", 6), ("m06", 7), ("m07", 8),
   ("m08", 9), ("m09", 10), ("m10", 11), ("m11", 12),
   ("m12", 13), ("m13", 14), ("m14", 15), ("m15", 16),
   ("m16", 17), ("m17", 18), ("m18", 19), ("m19", 20),
   ("m20", 21), ("m21", 22), ("m22", 23), ("m23", 24),
   ("m24", 25), ("m25", 26), ("m26", 27), ("m27", 28),
   ("m28", 29), ("m29", 30), ("m30", 31), ("m31", 32),
   ("m32", 33)]

/-- An initialized state whose registry already holds 32 entries, for
the C9 witness. -/
def fullRegistryState : HakoState :=
  ⟨true, false, batch33.take MAX_BYTECODE_MODULES, none, true, [], 0⟩

end Hako

namespace Hako

theorem registerLoop_extends (es : List BytecodeEntry)
    (reg : List (String × Bytecode)) :
    ∃ extra, (registerLoop es reg).1 = reg ++ extra := by
  induction es generalizing reg with
  | nil => exact ⟨[], by simp [registerLoop]⟩
  | cons e rest ih =>
    obtain ⟨n?, b?⟩ := e
    cases n? with
    | none => exact ⟨[], by simp [registerLoop]⟩
    | some n =>
      cases b? with
      | none => simpa [registerLoop] using ih reg
      | some b =>
        by_cases h : reg.length < MAX_BYTECODE_MODULES
        · obtain ⟨extra, hx⟩ := ih (reg ++ [(n, b)])
          exact ⟨(n, b) :: extra, by simp [registerLoop, h, hx]⟩
        · exact ⟨[], by simp [registerLoop, h]⟩

theorem registerLoop_entriesOf_append (ps : List (String × Bytecode))
    (es : List BytecodeEntry) (reg : List (String × Bytecode))
    (h : reg.length + ps.length ≤ MAX_BYTECODE_MODULES) :
    registerLoop (entriesOf ps ++ es) reg = registerLoop es (reg ++ ps) := by
  induction ps generalizing reg with
  | nil => simp [entriesOf]
  | cons p rest ih =>
    have hlt : reg.length < MAX_BYTECODE_MODULES := by
      simp only [List.length_cons] at h
      omega
    have hlen : (reg ++ [p]).length + rest.length ≤ MAX_BYTECODE_MODULES := by
      simp only [List.length_append, List.length_cons, List.length_nil] at h ⊢
      omega
    have := ih (reg ++ [p]) hlen
    simp only [entriesOf, List.map_cons, List.cons_append] at this ⊢
    rw [registerLoop, if_pos hlt]
    simpa [List.append_assoc] using this

theorem registerLoop_entriesOf (ps : List (String × Bytecode))
    (reg : List (String × Bytecode))
    (h : reg.length + ps.length ≤ MAX_BYTECODE_MODULES) :
    registerLoop (entriesOf ps) reg = (reg ++ ps, 0) := by
  have := registerLoop_entriesOf_append ps [] reg h
  simpa [registerLoop] using this

theorem registerLoop_full (n : String) (b : Bytecode)
    (rest : List BytecodeEntry) (reg : List (String × Bytecode))
    (h : ¬ reg.length < MAX_BYTECODE_MODULES) :
    registerLoop (⟨some n, some b⟩ :: rest) reg = (reg, -ENOMEM) := by
  simp [registerLoop, h]

theorem registerLoop_length_le (es : List BytecodeEntry)
    (reg : List (String × Bytecode))
    (h : reg.length ≤ MAX_BYTECODE_MODULES) :
    (registerLoop es reg).1.length ≤ MAX_BYTECODE_MODULES := by
  induction es generalizing reg with
  | nil => simpa [registerLoop]
  | cons e rest ih =>
    obtain ⟨n?, b?⟩ := e
    cases n? with
    | none => simpa [registerLoop]
    | some n =>
      cases b? with
      | none => simpa [registerLoop] using ih reg h
      | some b =>
        by_cases hlt : reg.length < MAX_BYTECODE_MODULES
        · have hlen : (reg ++ [(n, b)]).length ≤ MAX_BYTECODE_MODULES := by
            simp only [List.length_append, List.length_cons, List.length_nil]
            omega
          simpa [registerLoop, hlt] using ih (reg ++ [(n, b)]) hlen
        · simpa [registerLoop, hlt]

theorem findLoop_append_some (reg more : List (String × Bytecode))
    (n : String) (b : Bytecode) (h : findLoop reg n = some b) :
    findLoop (reg ++ more) n = some b := by
  induction reg with
  | nil => simp [findLoop] at h
  | cons e rest ih =>
    rw [List.cons_append, findLoop]
    rw [findLoop] at h
    by_cases he : e.1 = n
    · rw [if_pos he] at h ⊢
      exact h
    · rw [if_neg he] at h ⊢
      exact ih h

theorem findLoop_distinct (ps : List (String × Bytecode))
    (hdis : ps.Pairwise (fun a c => a.1 ≠ c.1)) :
    ∀ p ∈ ps, findLoop ps p.1 = some p.2 := by
  induction ps with
  | nil => simp
  | cons q rest ih =>
    intro p hp
    rcases List.mem_cons.mp hp with hq | hr
    · subst hq
      simp [findLoop]
    · have hne : q.1 ≠ p.1 := (List.pairwise_cons.mp hdis).1 p hr
      have := ih (List.pairwise_cons.mp hdis).2 p hr
      rw [findLoop, if_neg hne]
      exact this

theorem findLoop_not_mem (ps : List (String × Bytecode)) (n : String)
    (h : n ∉ ps.map Prod.fst) : findLoop ps n = none := by
  induction ps with
  | nil => rfl
  | cons q rest ih =>
    simp only [List.map_cons, List.mem_cons, not_or] at h
    rw [findLoop, if_neg (Ne.symm h.1)]
    exact ih h.2

end Hako

namespace Hako

theorem hako_start_vm_thread_registry (s : HakoState) (ok : Bool) (v : Nat) :
    (hako_start_vm_thread s ok v).1.bytecode_registry = s.bytecode_registry ∧
    (hako_start_vm_thread s ok v).1.vm_initialized = s.vm_initialized := by
  unfold hako_start_vm_thread
  by_cases h1 : s.vm_initialized
  · by_cases h2 : s.vm_thread_started
    · simp [h1, h2]
    · cases hf : hako_find_bytecode_locked s.bytecode_registry (some "main") with
      | none => simp [h1, h2, hf]
      | some bc =>
        cases ok with
        | false => simp [h1, h2, hf, hako_load_bytecode_locked, ENOMEM]
        | true => simp [h1, h2, hf, hako_load_bytecode_locked, ENOMEM]
  · simp [h1]

theorem hako_load_bytecode_registry (s : HakoState) (nm : Option String)
    (bc : Option Bytecode) (ok : Bool) (v : Nat) :
    (hako_load_bytecode s nm bc ok v).1.bytecode_registry = s.bytecode_registry ∧
    (hako_load_bytecode s nm bc ok v).1.vm_initialized = s.vm_initialized := by
  unfold hako_load_bytecode hako_load_bytecode_locked
  by_cases h1 : s.vm_initialized
  · cases bc with
    | none => simp [h1]
    | some b => cases ok <;> simp [h1]
  · simp [h1]

theorem stepState_extends (s : HakoState) (op : HakoOp)
    (h : s.vm_initialized = true) :
    (stepState s op).vm_initialized = true ∧
    ∃ extra, (stepState s op).bytecode_registry = s.bytecode_registry ++ extra := by
  cases op with
  | doInit => exact ⟨by simp [stepState, hako_init, h], [], by simp [stepState, hako_init, h]⟩
  | doLoadRegistry r c =>
    cases r with
    | none => exact ⟨by simp [stepState, hako_load_registry, h], [], by simp [stepState, hako_load_registry, h]⟩
    | some entries =>
      obtain ⟨extra, hx⟩ := registerLoop_extends (entries.take c) s.bytecode_registry
      exact ⟨by simp [stepState, hako_load_registry, h], extra,
        by simp [stepState, hako_load_registry, h, hx]⟩
  | doLoadBytecode nm bc ok v =>
    obtain ⟨h1, h2⟩ := hako_load_bytecode_registry s nm bc ok v
    exact ⟨by rw [stepState, h2, h], [], by rw [stepState, h1, List.append_nil]⟩
  | doRun ok v =>
    obtain ⟨h1, h2⟩ := hako_start_vm_thread_registry s ok v
    exact ⟨by rw [stepState, hako_run, h2, h], [],
      by rw [stepState, hako_run, h1, List.append_nil]⟩
  | doFind nm => exact ⟨h, [], by simp [stepState]⟩

theorem foldl_stepState_extends (ops : List HakoOp) :
    ∀ s : HakoState, s.vm_initialized = true →
      (ops.foldl stepState s).vm_initialized = true ∧
      ∃ extra, (ops.foldl stepState s).bytecode_registry =
        s.bytecode_registry ++ extra := by
  induction ops with
  | nil =>
    intro s h
    exact ⟨h, [], by simp⟩
  | cons op rest ih =>
    intro s h
    obtain ⟨h1, extra, hx⟩ := stepState_extends s op h
    obtain ⟨h2, extra2, hx2⟩ := ih (stepState s op) h1
    refine ⟨h2, extra ++ extra2, ?_⟩
    rw [List.foldl_cons] at *
    rw [hx2, hx, List.append_assoc]

theorem stepState_registry_le (s : HakoState) (op : HakoOp)
    (h : s.bytecode_registry.length ≤ MAX_BYTECODE_MODULES) :
    (stepState s op).bytecode_registry.length ≤ MAX_BYTECODE_MODULES := by
  cases op with
  | doInit =>
    by_cases h1 : s.vm_initialized <;> simp [stepState, hako_init, h1, h]
  | doLoadRegistry r c =>
    by_cases h1 : s.vm_initialized
    · cases r with
      | none => simpa [stepState, hako_load_registry, h1]
      | some entries =>
        simpa [stepState, hako_load_registry, h1] using
          registerLoop_length_le (entries.take c) s.bytecode_registry h
    · simpa [stepState, hako_load_registry, h1]
  | doLoadBytecode nm bc ok v =>
    rw [stepState, (hako_load_bytecode_registry s nm bc ok v).1]
    exact h
  | doRun ok v =>
    rw [stepState, hako_run, (hako_start_vm_thread_registry s ok v).1]
    exact h
  | doFind nm => exact h

theorem foldl_stepState_registry_le (ops : List HakoOp) :
    ∀ s : HakoState, s.bytecode_registry.length ≤ MAX_BYTECODE_MODULES →
      (ops.foldl stepState s).bytecode_registry.length ≤ MAX_BYTECODE_MODULES := by
  induction ops with
  | nil => intro s h; simpa
  | cons op rest ih =>
    intro s h
    rw [List.foldl_cons]
    exact ih (stepState s op) (stepState_registry_le s op h)

theorem hako_start_vm_thread_on_started (s : HakoState) (ok : Bool) (v : Nat)
    (h1 : s.vm_initialized = true) (h2 : s.vm_thread_started = true) :
    hako_start_vm_thread s ok v = (s, 0) := by
  unfold hako_start_vm_thread
  simp [h1, h2]

theorem hako_start_vm_thread_started_after (s : HakoState) (ok : Bool) (v : Nat)
    (h1 : s.vm_initialized = true)
    (hr : (hako_start_vm_thread s ok v).2 = 0) :
    (hako_start_vm_thread s ok v).1.vm_initialized = true ∧
    (hako_start_vm_thread s ok v).1.vm_thread_started = true := by
  unfold hako_start_vm_thread at *
  by_cases h2 : s.vm_thread_started
  · simp [h1, h2]
  · cases hf : hako_find_bytecode_locked s.bytecode_registry (some "main") with
    | none => simp [h1, h2, hf]
    | some bc =>
      cases ok with
      | false =>
        simp [h1, h2, hf, hako_load_bytecode_locked, ENOMEM] at hr
      | true =>
        simp [h1, h2, hf, hako_load_bytecode_locked, ENOMEM]

end Hako

namespace Hako

set_option maxRecDepth 4000 in
/-- C1: the current `hako_init_extensions` invokes extension callbacks
in catalog-discovery order, ignoring priority: on a catalog with
priorities [50, 10, 90, 10] the observed invocation order is
[0, 1, 2, 3] (= the discovery order), not the priority order
[1, 3, 0, 2] that `extension.h` documents and the spec mandates
([10, 10, 50, 90] by priority, ties by discovery order). -/
theorem extensions_discovery_order_ignores_priority :
    hako_init_extensions exampleCatalog = [0, 1, 2, 3] ∧
    priorityOrderedWalk exampleCatalog = [1, 3, 0, 2] ∧
    hako_init_extensions exampleCatalog ≠ priorityOrderedWalk exampleCatalog := by
  refine ⟨by decide, by decide, by decide⟩

/-- C2: `hako_init` never invokes `hako_init_extensions` — the call is
commented out in the source — so the successful transition from
uninitialized to initialized (shown on the load-time state: return 0,
`g_vm_initialized` flipped to true) includes zero walks of the
extension catalog, not the one walk the spec requires. -/
theorem init_performs_no_extension_walk :
    (∀ s : HakoState, (hako_init s).extension_walks = 0) ∧
    (hako_init initialState).ret = 0 ∧
    (hako_init initialState).state.vm_initialized = true := by
  refine ⟨fun s => ?_, by decide, by decide⟩
  unfold hako_init
  by_cases h : s.vm_initialized <;> simp [h]

/-- C3: a single call to `hako_init_extensions` terminates (it is a
total function of the finite catalog snapshot) and its invocation
trace is exactly the `init` callback of every catalog descriptor, in
catalog order — each descriptor's callback is invoked exactly once,
none skipped, none repeated. -/
theorem extensions_each_init_invoked_once (catalog : List ExtensionEntry) :
    hako_init_extensions catalog = catalog.map ExtensionEntry.init := by
  induction catalog with
  | nil => rfl
  | cons e rest ih =>
    simp only [hako_init_extensions, extensionWalk, List.map_cons] at ih ⊢
    rw [ih]

/-- C8: `hako_init` on an already-initialized runtime (whether or not
the VM thread is running) returns 0 immediately, leaves the whole
state unchanged — no arena re-allocation, no interpreter
re-construction, no module-count reset — and performs zero extension
walks. -/
theorem init_idempotent (s : HakoState) (h : s.vm_initialized = true) :
    hako_init s = ⟨s, 0, 0⟩ := by
  simp [hako_init, h]

/-- Witness for C8 at the concrete post-init state. -/
theorem init_idempotent_witness :
    postInitState.vm_initialized = true ∧
    hako_init postInitState = ⟨postInitState, 0, 0⟩ :=
  ⟨by decide, init_idempotent postInitState (by decide)⟩

end Hako

namespace Hako

/-- C4: `run` semantics (`hako_run` = `hako_start_vm_thread`):
(1) before `init` it returns `-EINVAL` (NotInitialized) with the state
untouched; (2) called again after a successful start it returns 0
immediately with the state unchanged — in particular no second
`k_thread_create` (`thread_spawns` unchanged) and no new `"main"` task
(`tasks` unchanged); (3) with no `"main"` module registered it still
returns 0; (4) after any run that returned 0 from an initialized
state, every further run returns 0 and changes nothing. -/
theorem run_semantics (s : HakoState) (ok : Bool) (v : Nat) :
    (s.vm_initialized = false → hako_run s ok v = (s, -EINVAL)) ∧
    (s.vm_initialized = true → s.vm_thread_started = true →
      hako_run s ok v = (s, 0)) ∧
    (s.vm_initialized = true →
      hako_find_bytecode_locked s.bytecode_registry (some "main") = none →
      (hako_run s ok v).2 = 0) ∧
    (s.vm_initialized = true → (hako_run s ok v).2 = 0 →
      ∀ (ok2 : Bool) (v2 : Nat),
        hako_run (hako_run s ok v).1 ok2 v2 = ((hako_run s ok v).1, 0)) := by
  refine ⟨fun h => ?_, fun h1 h2 => ?_, fun h1 hm => ?_, fun h1 hr ok2 v2 => ?_⟩
  · unfold hako_run hako_start_vm_thread
    simp [h]
  · exact hako_start_vm_thread_on_started s ok v h1 h2
  · unfold hako_run hako_start_vm_thread
    by_cases h2 : s.vm_thread_started
    · simp [h1, h2]
    · simp [h1, h2, hm]
  · obtain ⟨ha, hb⟩ := hako_start_vm_thread_started_after s ok v h1 hr
    exact hako_start_vm_thread_on_started _ ok2 v2 ha hb

/-- Witness for C4: the three scenarios at concrete states — a run
from the load-time state, from a started state, and twice from the
freshly initialized (empty-registry) state. -/
theorem run_semantics_witness :
    initialState.vm_initialized = false ∧
    hako_run initialState true 0 = (initialState, -EINVAL) ∧
    hako_run startedState true 0 = (startedState, 0) ∧
    (hako_run postInitState true 0).2 = 0 ∧
    hako_run (hako_run postInitState true 0).1 false 5 =
      ((hako_run postInitState true 0).1, 0) :=
  ⟨by decide,
   (run_semantics initialState true 0).1 (by decide),
   (run_semantics startedState true 0).2.1 (by decide) (by decide),
   (run_semantics postInitState true 0).2.2.1 (by decide) (by decide),
   (run_semantics postInitState true 0).2.2.2 (by decide) (by decide) false 5⟩

/-- C10: if `"main"` is registered but creating its task fails
(`task_ok = false` makes `mrbc_create_task` return NULL), `run`
returns `-ENOMEM` with the state exactly unchanged — the VM thread is
not created and `g_vm_thread_started` stays false — and a later run
whose task creation succeeds performs the whole start sequence: it
loads `"main"` as a task, spawns the supervisor thread and returns
0. -/
theorem run_main_load_failure_preserves_state (s : HakoState)
    (bc : Bytecode) (v v2 : Nat)
    (hinit : s.vm_initialized = true)
    (hstart : s.vm_thread_started = false)
    (hmain : hako_find_bytecode_locked s.bytecode_registry (some "main") =
      some bc) :
    hako_run s false v = (s, -ENOMEM) ∧
    (hako_run s true v2).2 = 0 ∧
    (hako_run s true v2).1.tasks = s.tasks ++ [(some "main", bc)] ∧
    (hako_run s true v2).1.vm_thread_started = true ∧
    (hako_run s true v2).1.thread_spawns = s.thread_spawns + 1 := by
  unfold hako_run hako_start_vm_thread
  refine ⟨?_, ?_, ?_, ?_, ?_⟩ <;>
    simp [hinit, hstart, hmain, hako_load_bytecode_locked, ENOMEM]

/-- Witness for C10 at a concrete state with `"main"` registered. -/
theorem run_main_load_failure_witness :
    (⟨true, false, [("main", 7)], none, true, [], 0⟩ : HakoState).vm_initialized
      = true ∧
    hako_find_bytecode_locked
      (⟨true, false, [("main", 7)], none, true, [], 0⟩ : HakoState).bytecode_registry
      (some "main") = some 7 ∧
    hako_run (⟨true, false, [("main", 7)], none, true, [], 0⟩ : HakoState) false 3 =
      (⟨true, false, [("main", 7)], none, true, [], 0⟩, -ENOMEM) ∧
    (hako_run (⟨true, false, [("main", 7)], none, true, [], 0⟩ : HakoState) true 3).1.tasks =
      [(some "main", 7)] :=
  ⟨by decide, by decide,
   (run_main_load_failure_preserves_state _ 7 3 3 (by decide) (by decide)
     (by decide)).1,
   (run_main_load_failure_preserves_state _ 7 3 3 (by decide) (by decide)
     (by decide)).2.2.1⟩

end Hako

namespace Hako

/-- C5: registry round trip.  From any initialized state with an empty
registry (the state `init` establishes), registering a batch of
`N <= 32` valid pairs with pairwise-distinct names succeeds (returns
0), after which `find` on each registered name returns exactly the
bytecode registered for it and `find` on any other name returns NULL. -/
theorem registry_round_trip (s : HakoState) (ps : List (String × Bytecode))
    (hs : s.vm_initialized = true) (h0 : s.bytecode_registry = [])
    (hlen : ps.length ≤ MAX_BYTECODE_MODULES)
    (hdis : ps.Pairwise (fun a c => a.1 ≠ c.1)) :
    (hako_load_registry s (some (entriesOf ps)) ps.length).2 = 0 ∧
    (∀ p ∈ ps, hako_find_bytecode
      (hako_load_registry s (some (entriesOf ps)) ps.length).1
      (some p.1) = some p.2) ∧
    (∀ nm : String, nm ∉ ps.map Prod.fst →
      hako_find_bytecode
        (hako_load_registry s (some (entriesOf ps)) ps.length).1
        (some nm) = none) := by
  have htake : (entriesOf ps).take ps.length = entriesOf ps := by
    rw [show ps.length = (entriesOf ps).length by simp [entriesOf],
      List.take_length]
  have hres : hako_load_registry s (some (entriesOf ps)) ps.length =
      ({ s with bytecode_registry := ps }, 0) := by
    unfold hako_load_registry
    rw [if_neg (by simp [hs] : ¬((!s.vm_initialized) = true))]
    show ({ s with bytecode_registry :=
      (registerLoop ((entriesOf ps).take ps.length) s.bytecode_registry).1 },
      (registerLoop ((entriesOf ps).take ps.length) s.bytecode_registry).2) = _
    rw [htake, h0, registerLoop_entriesOf ps [] (by simpa using hlen)]
    simp
  refine ⟨by rw [hres], fun p hp => ?_, fun nm hnm => ?_⟩
  · rw [hres]
    simp only [hako_find_bytecode, hako_find_bytecode_locked]
    exact findLoop_distinct ps hdis p hp
  · rw [hres]
    simp only [hako_find_bytecode, hako_find_bytecode_locked]
    exact findLoop_not_mem ps nm hnm

/-- Witness for C5: a two-module batch at the post-init state. -/
theorem registry_round_trip_witness :
    postInitState.vm_initialized = true ∧
    postInitState.bytecode_registry = [] ∧
    (hako_load_registry postInitState
      (some (entriesOf [("main", 1), ("utils", 2)])) 2).2 = 0 ∧
    hako_find_bytecode (hako_load_registry postInitState
      (some (entriesOf [("main", 1), ("utils", 2)])) 2).1
      (some "utils") = some 2 ∧
    hako_find_bytecode (hako_load_registry postInitState
      (some (entriesOf [("main", 1), ("utils", 2)])) 2).1
      (some "nope") = none :=
  ⟨by decide, by decide,
   (registry_round_trip postInitState [("main", 1), ("utils", 2)]
     (by decide) (by decide) (by decide) (by decide)).1,
   (registry_round_trip postInitState [("main", 1), ("utils", 2)]
     (by decide) (by decide) (by decide) (by decide)).2.1 ("utils", 2)
     (by decide),
   (registry_round_trip postInitState [("main", 1), ("utils", 2)]
     (by decide) (by decide) (by decide) (by decide)).2.2 "nope"
     (by decide)⟩

/-- C6: capacity boundary.  From any initialized state with an empty
registry, a batch of exactly `capacity + 1 = 33` valid pairs (distinct
names) returns `-ENOMEM`, aborting at the thirty-third entry; the 32
entries appended before the failure remain registered — the registry is
exactly the first 32 pairs — and each of them is findable. -/
theorem capacity_boundary (s : HakoState) (ps : List (String × Bytecode))
    (hs : s.vm_initialized = true) (h0 : s.bytecode_registry = [])
    (hlen : ps.length = MAX_BYTECODE_MODULES + 1)
    (hdis : ps.Pairwise (fun a c => a.1 ≠ c.1)) :
    hako_load_registry s (some (entriesOf ps)) ps.length =
      ({ s with bytecode_registry := ps.take MAX_BYTECODE_MODULES },
        -ENOMEM) ∧
    ∀ p ∈ ps.take MAX_BYTECODE_MODULES,
      hako_find_bytecode
        ({ s with bytecode_registry := ps.take MAX_BYTECODE_MODULES } :
          HakoState) (some p.1) = some p.2 := by
  have htake : (entriesOf ps).take ps.length = entriesOf ps := by
    rw [show ps.length = (entriesOf ps).length by simp [entriesOf],
      List.take_length]
  have hlen32 : (ps.take MAX_BYTECODE_MODULES).length =
      MAX_BYTECODE_MODULES := by
    rw [List.length_take, hlen]
    omega
  have hdroplen : (ps.drop MAX_BYTECODE_MODULES).length = 1 := by
    rw [List.length_drop, hlen]
    omega
  have hsplit : entriesOf ps =
      entriesOf (ps.take MAX_BYTECODE_MODULES) ++
        entriesOf (ps.drop MAX_BYTECODE_MODULES) := by
    unfold entriesOf
    rw [← List.map_append, List.take_append_drop]
  have hloop : registerLoop (entriesOf ps) s.bytecode_registry =
      (ps.take MAX_BYTECODE_MODULES, -ENOMEM) := by
    cases hd : ps.drop MAX_BYTECODE_MODULES with
    | nil => rw [hd] at hdroplen; simp at hdroplen
    | cons q tail =>
      rw [h0, hsplit,
        registerLoop_entriesOf_append _ _ [] (by simp [hlen32]), hd]
      show registerLoop (⟨some q.1, some q.2⟩ :: entriesOf tail)
        ([] ++ ps.take MAX_BYTECODE_MODULES) = _
      rw [List.nil_append]
      exact registerLoop_full q.1 q.2 _ _ (by omega)
  have hres : hako_load_registry s (some (entriesOf ps)) ps.length =
      ({ s with bytecode_registry := ps.take MAX_BYTECODE_MODULES },
        -ENOMEM) := by
    unfold hako_load_registry
    rw [if_neg (by simp [hs] : ¬((!s.vm_initialized) = true))]
    show ({ s with bytecode_registry :=
      (registerLoop ((entriesOf ps).take ps.length) s.bytecode_registry).1 },
      (registerLoop ((entriesOf ps).take ps.length) s.bytecode_registry).2) = _
    rw [htake, hloop]
  refine ⟨hres, fun p hp => ?_⟩
  simp only [hako_find_bytecode, hako_find_bytecode_locked]
  exact findLoop_distinct _
    (List.Pairwise.sublist (List.take_sublist _ _) hdis) p hp

/-- Witness for C6: the 33-entry batch at the post-init state. -/
theorem capacity_boundary_witness :
    batch33.length = MAX_BYTECODE_MODULES + 1 ∧
    hako_load_registry postInitState (some (entriesOf batch33))
      batch33.length =
      ({ postInitState with
          bytecode_registry := batch33.take MAX_BYTECODE_MODULES },
        -ENOMEM) ∧
    hako_find_bytecode
      ({ postInitState with
          bytecode_registry := batch33.take MAX_BYTECODE_MODULES } :
        HakoState) (some "m00") = some 1 :=
  ⟨by decide,
   (capacity_boundary postInitState batch33 (by decide) (by decide)
     (by decide) (by decide)).1,
   (capacity_boundary postInitState batch33 (by decide) (by decide)
     (by decide) (by decide)).2 ("m00", 1) (by decide)⟩

/-- C7: duplicate names.  From any initialized state with an empty
registry, registering two valid entries sharing one name succeeds and
keeps both in the table, and after any further sequence of public
façade calls, `find` on that name still returns the first-registered
bytecode. -/
theorem duplicate_names_first_wins (s : HakoState) (n : String)
    (b1 b2 : Bytecode) (hs : s.vm_initialized = true)
    (h0 : s.bytecode_registry = []) :
    hako_load_registry s (some (entriesOf [(n, b1), (n, b2)])) 2 =
      ({ s with bytecode_registry := [(n, b1), (n, b2)] }, 0) ∧
    ∀ ops : List HakoOp,
      hako_find_bytecode
        (ops.foldl stepState
          ({ s with bytecode_registry := [(n, b1), (n, b2)] } : HakoState))
        (some n) = some b1 := by
  constructor
  · unfold hako_load_registry
    rw [if_neg (by simp [hs] : ¬((!s.vm_initialized) = true))]
    show ({ s with bytecode_registry :=
      (registerLoop (entriesOf [(n, b1), (n, b2)]) s.bytecode_registry).1 },
      (registerLoop (entriesOf [(n, b1), (n, b2)]) s.bytecode_registry).2) = _
    rw [h0, registerLoop_entriesOf [(n, b1), (n, b2)] []
      (by norm_num [MAX_BYTECODE_MODULES])]
    simp
  · intro ops
    obtain ⟨hinit2, extra, hx⟩ := foldl_stepState_extends ops
      ({ s with bytecode_registry := [(n, b1), (n, b2)] }) (by simpa using hs)
    simp only [hako_find_bytecode, hako_find_bytecode_locked]
    rw [hx]
    show findLoop ([(n, b1), (n, b2)] ++ extra) n = some b1
    exact findLoop_append_some _ _ _ _ (by simp [findLoop])

/-- Witness for C7: a duplicate pair at the post-init state, checked
after a subsequent `run`. -/
theorem duplicate_names_first_wins_witness :
    hako_load_registry postInitState
      (some (entriesOf [("dup", 1), ("dup", 2)])) 2 =
      ({ postInitState with bytecode_registry := [("dup", 1), ("dup", 2)] },
        0) ∧
    hako_find_bytecode
      ([HakoOp.doRun true 0].foldl stepState
        ({ postInitState with
            bytecode_registry := [("dup", 1), ("dup", 2)] } : HakoState))
      (some "dup") = some 1 :=
  ⟨(duplicate_names_first_wins postInitState "dup" 1 2 (by decide)
     (by decide)).1,
   (duplicate_names_first_wins postInitState "dup" 1 2 (by decide)
     (by decide)).2 [HakoOp.doRun true 0]⟩

/-- C9: the registry invariant.  (1) `count <= capacity` holds in
every state reachable from process start by any sequence of public
façade calls (`init`, `load_registry`, `load_bytecode`, `run`,
`find`); (2) attempting to register a valid entry when the registry
already holds `capacity` entries is a hard failure: the call returns
`-ENOMEM` and the state is unchanged, not a silent drop. -/
theorem registry_capacity_invariant :
    (∀ ops : List HakoOp,
      (runOps ops).bytecode_registry.length ≤ MAX_BYTECODE_MODULES) ∧
    (∀ (s : HakoState) (p : String × Bytecode)
        (ps : List (String × Bytecode)) (count : Nat),
      s.vm_initialized = true →
      s.bytecode_registry.length = MAX_BYTECODE_MODULES →
      0 < count →
      hako_load_registry s (some (entriesOf (p :: ps))) count =
        (s, -ENOMEM)) := by
  constructor
  · intro ops
    exact foldl_stepState_registry_le ops initialState (by decide)
  · intro s p ps count hs hfull hc
    unfold hako_load_registry
    rw [if_neg (by simp [hs] : ¬((!s.vm_initialized) = true))]
    cases count with
    | zero => omega
    | succ k =>
      show ({ s with bytecode_registry :=
        (registerLoop ((entriesOf (p :: ps)).take (k + 1))
          s.bytecode_registry).1 },
        (registerLoop ((entriesOf (p :: ps)).take (k + 1))
          s.bytecode_registry).2) = _
      rw [show entriesOf (p :: ps) =
        ⟨some p.1, some p.2⟩ :: entriesOf ps from rfl, List.take_succ_cons]
      rw [registerLoop_full p.1 p.2 _ _ (by omega)]

/-- Witness for C9: the reachable-state bound after one `init`, and
the hard failure at a concrete full registry. -/
theorem registry_capacity_invariant_witness :
    (runOps [HakoOp.doInit]).bytecode_registry.length ≤
      MAX_BYTECODE_MODULES ∧
    fullRegistryState.bytecode_registry.length = MAX_BYTECODE_MODULES ∧
    hako_load_registry fullRegistryState
      (some (entriesOf [("extra", 99)])) 1 = (fullRegistryState, -ENOMEM) :=
  ⟨registry_capacity_invariant.1 [HakoOp.doInit],
   by decide,
   registry_capacity_invariant.2 fullRegistryState ("extra", 99) [] 1
     (by decide) (by decide) (by decide)⟩

end Hako
